import Mathlib

/-!
Verification of the hyperfocus daily task tracker: data model, daily
rollover, task-status state machine, history walker, and the command
layer of `hyperfocus/commands/task.py`.

The command layer (`TaskCommand.get_task`, `TaskCommand.show_tasks`,
`CopyCommand.execute`) is embedded from the source file
`src/hyperfocus/commands/task.py`.  The core services (DailyTracker,
History, the Task model and the storage collaborator) are not part of the
provided sources — only their tests and callers are — so they are
modelled from the specification, as marked in each doc comment.
-/

namespace Hyperfocus

/-- Modelled from the spec: task status `TODO, DONE, BLOCKED, DELETED, STASHED`
(spec section 3, "Data Model"); the source module `hyperfocus/database/models.py`
is not under src. -/
inductive TaskStatus where
  | todo
  | blocked
  | done
  | deleted
  | stashed
deriving DecidableEq, Repr

/-- The statuses a caller may request through `update_task`
(`STASHED` is reserved for rollover). -/
def TaskStatus.user_assignable (st : TaskStatus) : Prop :=
  st = .todo ∨ st = .done ∨ st = .blocked ∨ st = .deleted

/-- The *unfinished* statuses that carry forward on rollover
(spec section 4.2 step 3c). -/
def TaskStatus.unfinished (st : TaskStatus) : Bool :=
  st = .todo || st = .blocked

/-- Modelled from the spec: the Task entity (spec section 3) — id, title,
optional details (absence distinct from empty string), status, day, and an
optional id-based `parent_task` back-reference (spec section 9 recommends an
id-keyed arena).  Days are calendar days encoded as naturals. -/
structure Task where
  id : Nat
  title : String
  details : Option String
  status : TaskStatus
  day : Nat
  parent_task : Option Nat
deriving DecidableEq, Repr

/-- Modelled from the spec: the storage collaborator's state (spec section 6):
the recorded tasks in creation order, and the next id storage will assign. -/
structure Storage where
  tasks : List Task
  nextId : Nat
deriving DecidableEq, Repr

/-- The empty storage of a first-ever run. -/
def Storage.empty : Storage := ⟨[], 0⟩

/-- Modelled from the spec: `find_tasks_by_day(day)` — the ordered collection
of tasks whose day is `d` (spec section 6). -/
def find_tasks_by_day (s : Storage) (d : Nat) : List Task :=
  s.tasks.filter (fun t => t.day = d)

/-- Modelled from the spec: `find_latest_day_before(day)` — the most recent
day strictly before `d` that has at least one task, if any (spec section 6
and section 4.2 step 3a). -/
def find_latest_day_before (s : Storage) (d : Nat) : Option Nat :=
  (s.tasks.filter (fun t => t.day < d)).foldl
    (fun acc t =>
      match acc with
      | none => some t.day
      | some m => some (max m t.day))
    none

/-- Modelled from the spec: `update_task_status(task_id, status)` — persist a
new status for the task with the given id (spec section 6). -/
def set_status (s : Storage) (i : Nat) (st : TaskStatus) : Storage :=
  { s with tasks := s.tasks.map (fun t => if t.id = i then { t with status := st } else t) }

/-- Modelled from the spec: `insert_task` / `add_task` — create and persist a
new `TODO` task on day `d`; storage assigns the id (spec sections 4.2 and 6). -/
def add_task (s : Storage) (d : Nat) (title : String) (details : Option String) :
    Storage × Task :=
  let t : Task := ⟨s.nextId, title, details, .todo, d, none⟩
  (⟨s.tasks ++ [t], s.nextId + 1⟩, t)

/-- Modelled from the spec: `find_task_by_id_and_day(task_id, day)`
(spec section 6); backs the tracker's day-scoped `get_task`. -/
def find_task_by_id_and_day (s : Storage) (i : Nat) (d : Nat) : Option Task :=
  s.tasks.find? (fun t => t.id = i && t.day = d)

/-- Modelled from the spec: the tasks selected for rollover into day `d` —
the unfinished tasks of the most recent day with tasks strictly before `d`,
in that day's listing order (spec section 4.2 steps 3a–3c). -/
def rollover_sources (s : Storage) (d : Nat) : List Task :=
  match find_latest_day_before s d with
  | none => []
  | some p => (find_tasks_by_day s p).filter (fun t => t.status.unfinished)

/-- Modelled from the spec: the successor task created on day `d` for a
carried-over task `t` — same title and details, status `TODO`, `parent_task`
pointing to `t` (spec section 4.2 step 3d). -/
def clone_of (t : Task) (d : Nat) (newId : Nat) : Task :=
  ⟨newId, t.title, t.details, .todo, d, some t.id⟩

/-- Clone each task of `l` onto day `d`, assigning ids sequentially from `n`
(storage assigns ids in insertion order). -/
def make_clones (d : Nat) : Nat → List Task → List Task
  | _, [] => []
  | n, t :: r => clone_of t d n :: make_clones d (n + 1) r

/-- Modelled from the spec: the successor tasks a rollover into day `d`
creates, in the prior day's listing order, with sequentially assigned ids. -/
def rollover_clones (s : Storage) (d : Nat) : List Task :=
  make_clones d s.nextId (rollover_sources s d)

/-- Mark a task `STASHED` when its id is among the carried-over ids,
leaving every other field and every other task untouched. -/
def stash_mark (ids : List Nat) (t : Task) : Task :=
  if t.id ∈ ids then { t with status := TaskStatus.stashed } else t

/-- Modelled from the spec: the storage state after the rollover for day `d`
commits — every carried-over source task is marked `STASHED` and its successor
is created on day `d` (spec section 4.2 step 3d). -/
def rollover_state (s : Storage) (d : Nat) : Storage :=
  ⟨s.tasks.map (stash_mark ((rollover_sources s d).map (fun t => t.id)))
      ++ rollover_clones s d,
    s.nextId + (rollover_sources s d).length⟩

/-- Modelled from the spec: `DailyTracker.from_date(date)` (spec section 4.2):
if tasks already exist for `d` the tracker binds to them and `new_day = false`;
otherwise the rollover runs and `new_day = true`.  Returns the resulting
storage and the `new_day` flag. -/
def from_date (s : Storage) (d : Nat) : Storage × Bool :=
  if find_tasks_by_day s d = [] then (rollover_state s d, true)
  else (s, false)

/-- Modelled from the spec: the transactional rollover of section 5 — the whole
rollover for `d` runs inside one transaction, so a mid-rollover storage failure
(`fail = true`) rolls back and leaves the storage untouched. -/
def from_date_fallible (s : Storage) (d : Nat) (fail : Bool) : Storage × Bool :=
  if find_tasks_by_day s d = [] then
    if fail then (s, false) else (rollover_state s d, true)
  else (s, false)

/-- Modelled from the spec: the distinguished outcomes of `update_task`
(spec sections 4.1 and 9: `Updated | Unchanged`, explicit variants). -/
inductive UpdateResult where
  | updated
  | unchanged
deriving DecidableEq, Repr

/-- Modelled from the spec: `update_task(task, new_status)` (spec section 4.1):
a same-status request is a no-op performing no persistence write and signalling
"unchanged"; otherwise the new status is written (one write) and the result is
"updated".  The last component counts persistence writes. -/
def update_task (s : Storage) (t : Task) (st : TaskStatus) :
    Storage × UpdateResult × Nat :=
  if st = t.status then (s, .unchanged, 0)
  else (set_status s t.id st, .updated, 1)

/-- Modelled from the spec: the tracker's `get_tasks(exclude)` — all tasks of
the bound day `d` whose status is not in `exclude`, in creation order
(spec section 4.2). -/
def get_tasks (s : Storage) (d : Nat) (exclude : List TaskStatus) : List Task :=
  (find_tasks_by_day s d).filter (fun t => !exclude.contains t.status)

/-- Modelled from the spec: the tracker's day-scoped `get_task(task_id)` —
the task with that id on the bound day, or a not-found signal (spec
section 4.2). -/
def tracker_get_task (s : Storage) (d : Nat) (i : Nat) : Option Task :=
  find_task_by_id_and_day s i d

/-! ## History walker (spec section 4.3) -/

/-- Look a task up by id in storage (the id-keyed arena of spec section 9). -/
def lookup_task (s : Storage) (i : Nat) : Option Task :=
  s.tasks.find? (fun t => t.id = i)

/-- Modelled from the spec: the lineage of a task, oldest ancestor first,
obtained by following `parent_task` links until none remain (spec
section 4.3).  `fuel` bounds the traversal; under the day-decreasing
invariant `fuel = t.day + 1` is always enough (proved below). -/
def lineage (s : Storage) : Nat → Task → List Task
  | 0, t => [t]
  | fuel + 1, t =>
    match t.parent_task with
    | none => [t]
    | some i =>
      match lookup_task s i with
      | none => [t]
      | some p => lineage s fuel p ++ [t]

/-- Modelled from the spec: an item of the history sequence — a day marker or
a task entry (spec section 9: a tagged union over day markers and tasks). -/
inductive HistoryItem where
  | day_marker (d : Nat)
  | entry (t : Task)
deriving DecidableEq, Repr

/-- Group a lineage (oldest first) into history items: a day marker is emitted
whenever the day changes, followed by that day's task entries. -/
def history_group : Option Nat → List Task → List HistoryItem
  | _, [] => []
  | cur, t :: rest =>
    if cur = some t.day then .entry t :: history_group (some t.day) rest
    else .day_marker t.day :: .entry t :: history_group (some t.day) rest

/-- Modelled from the spec: `history(task)` — the finite display sequence for
a task's lineage, walking from the most distant ancestor day to the task's own
day, each day marker followed by that day's entries (spec section 4.3). -/
def history (s : Storage) (t : Task) : List HistoryItem :=
  history_group none (lineage s (t.day + 1) t)

/-! ## Command layer, embedded from `src/hyperfocus/commands/task.py` -/

/-- `TaskCommand.get_task` (src/hyperfocus/commands/task.py, lines 38–43):
look the id up through the tracker bound to day `d`; if no task comes back,
raise `TaskError("Task {task_id} does not exist.")`. -/
def command_get_task (s : Storage) (d : Nat) (task_id : Nat) :
    Except String Task :=
  match tracker_get_task s d task_id with
  | none => .error ("Task " ++ toString task_id ++ " does not exist.")
  | some t => .ok t

/-- `CopyCommand.execute` after the task is resolved
(src/hyperfocus/commands/task.py, lines 56–61): `if not task.details` —
Python truthiness, so both absent details (`None`) and the empty string are
rejected with `TaskError("Task {task_id} does not have details.")`; otherwise
`pyperclip.copy(task.details)` runs once and a success message is printed.
The first component records the clipboard writes performed. -/
def copy_execute (task_id : Nat) (t : Task) : List String × Except String String :=
  match t.details with
  | none => ([], .error ("Task " ++ toString task_id ++ " does not have details."))
  | some d =>
    if d = "" then ([], .error ("Task " ++ toString task_id ++ " does not have details."))
    else ([d], .ok ("Task " ++ toString task_id ++ " details copied to clipboard."))

/-! ## Reachable storage states

The operations the core ever applies to storage (spec sections 4 and 5):
binding a day (with or without a mid-rollover storage failure — a failure
rolls the transaction back, spec section 5), adding a task, and a
state-machine status update.  A status update goes through `get_task`, which
is scoped to the bound day, and the tool always binds "today", so the updated
task lives on the most recent recorded day; `STASHED` may never be requested
(spec section 7, `ValidationError`). -/

inductive Step : Storage → Storage → Prop where
  | bind (s : Storage) (d : Nat) : Step s (from_date s d).1
  | bind_failed (s : Storage) (d : Nat) : Step s (from_date_fallible s d true).1
  | add (s : Storage) (d : Nat) (title : String) (details : Option String) :
      Step s (add_task s d title details).1
  | update (s : Storage) (t : Task) (st : TaskStatus)
      (ht : t ∈ s.tasks) (hd : ∀ u ∈ s.tasks, u.day ≤ t.day)
      (hst : st.user_assignable) :
      Step s (set_status s t.id st)

/-- A storage state reachable from a first-ever run by core operations. -/
def Reachable (s : Storage) : Prop :=
  Relation.ReflTransGen Step Storage.empty s

/-- Storage-assigned ids: every id is below `nextId` and ids are unique
(spec section 3: "`id` is never reused or mutated once assigned"). -/
def IdInv (s : Storage) : Prop :=
  (∀ t ∈ s.tasks, t.id < s.nextId) ∧ (s.tasks.map (fun t => t.id)).Nodup

/-- No partial stash/clone pair (spec sections 4.2 and 5): every `STASHED`
task has a successor on a strictly later day, and every `parent_task`
back-reference points to a `STASHED` task on a strictly earlier day. -/
def StashInv (s : Storage) : Prop :=
  (∀ t ∈ s.tasks, t.status = TaskStatus.stashed →
    ∃ c ∈ s.tasks, c.parent_task = some t.id ∧ t.day < c.day)
  ∧ (∀ c ∈ s.tasks, ∀ i, c.parent_task = some i →
    ∃ t ∈ s.tasks, t.id = i ∧ t.status = TaskStatus.stashed ∧ t.day < c.day)

/-- The combined storage invariant. -/
def Inv (s : Storage) : Prop := IdInv s ∧ StashInv s

/-! ## Properties of `find_latest_day_before` -/

lemma foldl_maxday_some (l : List Task) : ∀ m : Nat,
    l.foldl
      (fun acc t =>
        match acc with
        | none => some t.day
        | some m' => some (max m' t.day))
      (some m)
      = some (l.foldl (fun a t => max a t.day) m) := by
  induction l with
  | nil => intro m; rfl
  | cons t r ih => intro m; simpa using ih (max m t.day)

lemma le_foldl_maxday (l : List Task) : ∀ m : Nat,
    m ≤ l.foldl (fun a t => max a t.day) m := by
  induction l with
  | nil => intro m; simp
  | cons t r ih =>
    intro m
    exact le_trans (le_max_left m t.day) (ih (max m t.day))

lemma day_le_foldl_maxday (l : List Task) : ∀ m : Nat, ∀ t ∈ l,
    t.day ≤ l.foldl (fun a t => max a t.day) m := by
  induction l with
  | nil => simp
  | cons u r ih =>
    intro m t ht
    rcases List.mem_cons.mp ht with h | h
    · subst h; exact le_trans (le_max_right m t.day) (le_foldl_maxday r _)
    · exact ih _ t h

lemma foldl_maxday_cases (l : List Task) : ∀ m : Nat,
    l.foldl (fun a t => max a t.day) m = m
      ∨ ∃ t ∈ l, l.foldl (fun a t => max a t.day) m = t.day := by
  induction l with
  | nil => intro m; left; rfl
  | cons u r ih =>
    intro m
    rcases ih (max m u.day) with h | ⟨t, ht, h⟩
    · rcases max_choice m u.day with hm | hm
      · left; rw [List.foldl_cons, h, hm]
      · right
        exact ⟨u, List.mem_cons_self u r, by rw [List.foldl_cons, h, hm]⟩
    · right; exact ⟨t, List.mem_cons_of_mem _ ht, by rw [List.foldl_cons, h]⟩

lemma foldl_maxday_le (l : List Task) : ∀ m D : Nat, m ≤ D →
    (∀ t ∈ l, t.day ≤ D) → l.foldl (fun a t => max a t.day) m ≤ D := by
  induction l with
  | nil => intro m D hm _; simpa using hm
  | cons u r ih =>
    intro m D hm hl
    exact ih _ D (max_le hm (hl u (List.mem_cons_self u r)))
      (fun t ht => hl t (List.mem_cons_of_mem _ ht))

lemma find_latest_day_before_eq_match (s : Storage) (d : Nat) :
    find_latest_day_before s d
      = match s.tasks.filter (fun t => t.day < d) with
        | [] => none
        | t :: r => some (r.foldl (fun a u => max a u.day) t.day) := by
  unfold find_latest_day_before
  cases hf : s.tasks.filter (fun t => t.day < d) with
  | nil => simp
  | cons t r => simp [foldl_maxday_some]

lemma find_latest_day_before_some {s : Storage} {d D : Nat}
    (h : find_latest_day_before s d = some D) :
    (∃ t ∈ s.tasks, t.day = D ∧ D < d)
      ∧ ∀ t ∈ s.tasks, t.day < d → t.day ≤ D := by
  rw [find_latest_day_before_eq_match] at h
  cases hf : s.tasks.filter (fun t => t.day < d) with
  | nil => rw [hf] at h; cases h
  | cons u r =>
    rw [hf] at h
    have hD : r.foldl (fun a t => max a t.day) u.day = D := by
      injection h
    have hmemf : ∀ t ∈ s.tasks.filter (fun t => t.day < d),
        t ∈ s.tasks ∧ t.day < d := by
      intro t ht
      have := List.mem_filter.mp ht
      simpa using this
    constructor
    · rcases foldl_maxday_cases r u.day with hc | ⟨t, ht, hc⟩
      · have hu := hmemf u (hf ▸ List.mem_cons_self u r)
        exact ⟨u, hu.1, by rw [← hD, hc], by rw [← hD, hc]; exact hu.2⟩
      · have htf := hmemf t (hf ▸ List.mem_cons_of_mem _ ht)
        exact ⟨t, htf.1, by rw [← hD, hc], by rw [← hD, hc]; exact htf.2⟩
    · intro t htm htd
      have htf : t ∈ s.tasks.filter (fun t => t.day < d) := by
        simp [List.mem_filter, htm, htd]
      rw [hf] at htf
      rcases List.mem_cons.mp htf with h' | h'
      · subst h'; rw [← hD]; exact le_foldl_maxday r _
      · rw [← hD]; exact day_le_foldl_maxday r _ t h'

lemma find_latest_day_before_none {s : Storage} {d : Nat}
    (h : find_latest_day_before s d = none) :
    ∀ t ∈ s.tasks, ¬ t.day < d := by
  rw [find_latest_day_before_eq_match] at h
  cases hf : s.tasks.filter (fun t => t.day < d) with
  | nil =>
    intro t ht hd
    have : t ∈ s.tasks.filter (fun t => t.day < d) := by
      simp [List.mem_filter, ht, hd]
    rw [hf] at this
    cases this
  | cons u r => rw [hf] at h; cases h

lemma find_latest_day_before_eq_some {s : Storage} {d D : Nat}
    (hmem : ∃ t ∈ s.tasks, t.day = D) (hlt : D < d)
    (hmax : ∀ t ∈ s.tasks, t.day < d → t.day ≤ D) :
    find_latest_day_before s d = some D := by
  rcases hmem with ⟨t0, ht0, ht0d⟩
  have ht0f : t0 ∈ s.tasks.filter (fun t => t.day < d) := by
    simp [List.mem_filter, ht0, ht0d, hlt]
  rw [find_latest_day_before_eq_match]
  cases hf : s.tasks.filter (fun t => t.day < d) with
  | nil => rw [hf] at ht0f; cases ht0f
  | cons u r =>
    have hmemf : ∀ t ∈ s.tasks.filter (fun t => t.day < d),
        t ∈ s.tasks ∧ t.day < d := by
      intro t ht
      have := List.mem_filter.mp ht
      simpa using this
    have hle : r.foldl (fun a t => max a t.day) u.day ≤ D := by
      apply foldl_maxday_le
      · have hu := hmemf u (hf ▸ List.mem_cons_self u r)
        exact hmax u hu.1 hu.2
      · intro t ht
        have htf := hmemf t (hf ▸ List.mem_cons_of_mem _ ht)
        exact hmax t htf.1 htf.2
    have hge : D ≤ r.foldl (fun a t => max a t.day) u.day := by
      rw [hf] at ht0f
      rcases List.mem_cons.mp ht0f with h' | h'
      · rw [← ht0d, h']; exact le_foldl_maxday r _
      · rw [← ht0d]; exact day_le_foldl_maxday r _ t0 h'
    exact congrArg some (le_antisymm hle hge)

/-! ## Properties of the rollover pieces -/

@[simp] lemma clone_of_id (t : Task) (d m : Nat) : (clone_of t d m).id = m := rfl

@[simp] lemma clone_of_title (t : Task) (d m : Nat) : (clone_of t d m).title = t.title := rfl

@[simp] lemma clone_of_details (t : Task) (d m : Nat) :
    (clone_of t d m).details = t.details := rfl

@[simp] lemma clone_of_status (t : Task) (d m : Nat) :
    (clone_of t d m).status = TaskStatus.todo := rfl

@[simp] lemma clone_of_day (t : Task) (d m : Nat) : (clone_of t d m).day = d := rfl

@[simp] lemma clone_of_parent (t : Task) (d m : Nat) :
    (clone_of t d m).parent_task = some t.id := rfl

@[simp] lemma stash_mark_id (ids : List Nat) (t : Task) :
    (stash_mark ids t).id = t.id := by
  unfold stash_mark; split <;> rfl

@[simp] lemma stash_mark_title (ids : List Nat) (t : Task) :
    (stash_mark ids t).title = t.title := by
  unfold stash_mark; split <;> rfl

@[simp] lemma stash_mark_details (ids : List Nat) (t : Task) :
    (stash_mark ids t).details = t.details := by
  unfold stash_mark; split <;> rfl

@[simp] lemma stash_mark_day (ids : List Nat) (t : Task) :
    (stash_mark ids t).day = t.day := by
  unfold stash_mark; split <;> rfl

@[simp] lemma stash_mark_parent (ids : List Nat) (t : Task) :
    (stash_mark ids t).parent_task = t.parent_task := by
  unfold stash_mark; split <;> rfl

lemma stash_mark_of_mem {ids : List Nat} {t : Task} (h : t.id ∈ ids) :
    stash_mark ids t = { t with status := TaskStatus.stashed } := by
  unfold stash_mark; rw [if_pos h]

lemma stash_mark_of_not_mem {ids : List Nat} {t : Task} (h : t.id ∉ ids) :
    stash_mark ids t = t := by
  unfold stash_mark; rw [if_neg h]

lemma make_clones_length (d : Nat) : ∀ (n : Nat) (l : List Task),
    (make_clones d n l).length = l.length := by
  intro n l
  induction l generalizing n with
  | nil => rfl
  | cons t r ih => simp [make_clones, ih]

lemma mem_make_clones {d : Nat} : ∀ {n : Nat} {l : List Task} {c : Task},
    c ∈ make_clones d n l → ∃ t ∈ l, ∃ m, n ≤ m ∧ c = clone_of t d m := by
  intro n l
  induction l generalizing n with
  | nil => intro c hc; cases hc
  | cons t r ih =>
    intro c hc
    rcases List.mem_cons.mp hc with h | h
    · exact ⟨t, List.mem_cons_self t r, n, le_refl n, h⟩
    · rcases ih h with ⟨u, hu, m, hm, hcm⟩
      exact ⟨u, List.mem_cons_of_mem _ hu, m, le_trans (Nat.le_succ n) hm, hcm⟩

lemma clone_mem_make_clones {d : Nat} : ∀ {n : Nat} {l : List Task} {t : Task},
    t ∈ l → ∃ m, n ≤ m ∧ clone_of t d m ∈ make_clones d n l := by
  intro n l
  induction l generalizing n with
  | nil => intro t ht; cases ht
  | cons u r ih =>
    intro t ht
    rcases List.mem_cons.mp ht with h | h
    · subst h
      exact ⟨n, le_refl n, List.mem_cons_self _ _⟩
    · rcases ih h with ⟨m, hm, hmem⟩
      exact ⟨m, le_trans (Nat.le_succ n) hm, List.mem_cons_of_mem _ hmem⟩

lemma make_clones_ids (d : Nat) : ∀ (n : Nat) (l : List Task),
    (make_clones d n l).map (fun t => t.id) = List.range' n l.length := by
  intro n l
  induction l generalizing n with
  | nil => rfl
  | cons t r ih => simp [make_clones, ih, List.range'_succ]

lemma mem_find_tasks_by_day {s : Storage} {d : Nat} {t : Task} :
    t ∈ find_tasks_by_day s d ↔ t ∈ s.tasks ∧ t.day = d := by
  simp [find_tasks_by_day, List.mem_filter]

lemma rollover_sources_sublist (s : Storage) (d : Nat) :
    (rollover_sources s d).Sublist s.tasks := by
  unfold rollover_sources
  cases hl : find_latest_day_before s d with
  | none => exact List.nil_sublist _
  | some p => exact (List.filter_sublist _).trans (List.filter_sublist _)

lemma mem_rollover_sources {s : Storage} {d : Nat} {t : Task}
    (h : t ∈ rollover_sources s d) :
    t ∈ s.tasks ∧ t.day < d ∧ t.status.unfinished = true := by
  unfold rollover_sources at h
  cases hl : find_latest_day_before s d with
  | none => rw [hl] at h; cases h
  | some p =>
    rw [hl] at h
    have h' := List.mem_filter.mp h
    have hmem := mem_find_tasks_by_day.mp h'.1
    rcases (find_latest_day_before_some hl).1 with ⟨_, _, _, hpd⟩
    exact ⟨hmem.1, hmem.2 ▸ hpd, by simpa using h'.2⟩

lemma unfinished_not_stashed {st : TaskStatus} (h : st.unfinished = true) :
    st ≠ TaskStatus.stashed := by
  cases st <;> simp_all [TaskStatus.unfinished]

lemma find_tasks_by_day_rollover (s : Storage) (d : Nat)
    (h0 : find_tasks_by_day s d = []) :
    find_tasks_by_day (rollover_state s d) d = rollover_clones s d := by
  have hall : ∀ t ∈ s.tasks, ¬ t.day = d := by
    simpa [find_tasks_by_day, List.filter_eq_nil_iff] using h0
  unfold rollover_state find_tasks_by_day
  rw [List.filter_append]
  have h1 : (s.tasks.map
      (stash_mark ((rollover_sources s d).map (fun t => t.id)))).filter
        (fun t => t.day = d) = [] := by
    rw [List.filter_eq_nil_iff]
    intro u hu
    rcases List.mem_map.mp hu with ⟨t, ht, hut⟩
    have : u.day = t.day := by subst hut; simp
    simp [this, hall t ht]
  have h2 : (rollover_clones s d).filter (fun t => t.day = d)
      = rollover_clones s d := by
    rw [List.filter_eq_self]
    intro c hc
    rcases mem_make_clones hc with ⟨t, _, m, _, hcm⟩
    simp [hcm]
  rw [h1, h2, List.nil_append]

/-! ## Invariant preservation -/

lemma id_inj {s : Storage} (h : (s.tasks.map (fun t => t.id)).Nodup)
    {t₁ t₂ : Task} (h1 : t₁ ∈ s.tasks) (h2 : t₂ ∈ s.tasks)
    (hid : t₁.id = t₂.id) : t₁ = t₂ :=
  List.inj_on_of_nodup_map h h1 h2 hid

lemma mem_srcIds_iff {s : Storage} (hnd : (s.tasks.map (fun t => t.id)).Nodup)
    {d : Nat} {t : Task} (ht : t ∈ s.tasks) :
    t.id ∈ (rollover_sources s d).map (fun t => t.id)
      ↔ t ∈ rollover_sources s d := by
  constructor
  · intro h
    rcases List.mem_map.mp h with ⟨u, hu, hui⟩
    have huT : u ∈ s.tasks := (rollover_sources_sublist s d).subset hu
    exact (id_inj hnd huT ht hui) ▸ hu
  · intro h; exact List.mem_map.mpr ⟨t, h, rfl⟩

lemma IdInv_rollover {s : Storage} (h : IdInv s) (d : Nat) :
    IdInv (rollover_state s d) := by
  obtain ⟨hbound, hnd⟩ := h
  constructor
  · intro t ht
    rcases List.mem_append.mp ht with h' | h'
    · rcases List.mem_map.mp h' with ⟨u, hu, hut⟩
      have hid : t.id = u.id := by subst hut; simp
      have := hbound u hu
      simp only [rollover_state]
      omega
    · have : t.id ∈ (rollover_clones s d).map (fun t => t.id) :=
        List.mem_map.mpr ⟨t, h', rfl⟩
      rw [rollover_clones, make_clones_ids] at this
      have := List.mem_range'_1.mp this
      simp only [rollover_state]
      omega
  · show ((_ ++ rollover_clones s d).map (fun t => t.id)).Nodup
    rw [List.map_append]
    have hmap : ((s.tasks.map
        (stash_mark ((rollover_sources s d).map (fun t => t.id)))).map
          (fun t => t.id)) = s.tasks.map (fun t => t.id) := by
      rw [List.map_map]
      apply List.map_congr_left
      intro u hu
      simp [Function.comp]
    rw [hmap, rollover_clones, make_clones_ids]
    rw [List.nodup_append]
    refine ⟨hnd, List.nodup_range' _ _, ?_⟩
    intro a ha hb
    have ha' : a < s.nextId := by
      rcases List.mem_map.mp ha with ⟨u, hu, hua⟩
      exact hua ▸ hbound u hu
    have hb' := (List.mem_range'_1.mp hb).1
    omega

lemma StashInv_rollover {s : Storage} (h : Inv s) (d : Nat) :
    StashInv (rollover_state s d) := by
  obtain ⟨⟨hbound, hnd⟩, hstash1, hstash2⟩ := h
  have htasks : (rollover_state s d).tasks
      = s.tasks.map (stash_mark ((rollover_sources s d).map (fun t => t.id)))
        ++ rollover_clones s d := rfl
  constructor
  · -- every stashed task has a successor on a strictly later day
    intro t ht hts
    rw [htasks] at ht
    rcases List.mem_append.mp ht with h' | h'
    · rcases List.mem_map.mp h' with ⟨u, hu, hut⟩
      by_cases hc : u.id ∈ (rollover_sources s d).map (fun t => t.id)
      · -- u is carried over: its fresh clone is the successor
        have husrc : u ∈ rollover_sources s d := (mem_srcIds_iff hnd hu).mp hc
        rcases clone_mem_make_clones (d := d) (n := s.nextId) husrc
          with ⟨m, _, hmem⟩
        refine ⟨clone_of u d m, ?_, ?_, ?_⟩
        · rw [htasks]
          exact List.mem_append.mpr (Or.inr hmem)
        · have : t.id = u.id := by rw [← hut]; simp
          simp [this]
        · have hday : t.day = u.day := by rw [← hut]; simp
          have := (mem_rollover_sources husrc).2.1
          simpa [hday] using this
      · -- u was already stashed before: its old successor survives
        have hut' : t = u := by rw [← hut, stash_mark_of_not_mem hc]
        subst hut'
        rcases hstash1 t hu hts with ⟨c, hc1, hc2, hc3⟩
        refine ⟨stash_mark ((rollover_sources s d).map (fun t => t.id)) c,
          ?_, ?_, ?_⟩
        · rw [htasks]
          exact List.mem_append.mpr (Or.inl (List.mem_map.mpr ⟨c, hc1, rfl⟩))
        · rw [stash_mark_parent]; exact hc2
        · rw [stash_mark_day]; exact hc3
    · -- clones are TODO, never stashed
      rcases mem_make_clones h' with ⟨u, _, m, _, hcm⟩
      rw [hcm] at hts
      simp at hts
  · -- every back-reference points to a stashed task on an earlier day
    intro c hc i hci
    rw [htasks] at hc
    rcases List.mem_append.mp hc with h' | h'
    · rcases List.mem_map.mp h' with ⟨c₀, hc₀, hcc⟩
      have hpar : c₀.parent_task = some i := by
        rw [← stash_mark_parent ((rollover_sources s d).map (fun t => t.id)) c₀,
          hcc, hci]
      rcases hstash2 c₀ hc₀ i hpar with ⟨t, ht, hti, hts, htd⟩
      have htns : t ∉ rollover_sources s d := by
        intro hmem
        exact unfinished_not_stashed (mem_rollover_sources hmem).2.2 hts
      have hgt : stash_mark ((rollover_sources s d).map (fun t => t.id)) t
          = t :=
        stash_mark_of_not_mem (fun hcm => htns ((mem_srcIds_iff hnd ht).mp hcm))
      refine ⟨t, ?_, hti, hts, ?_⟩
      · rw [htasks]
        exact List.mem_append.mpr (Or.inl (List.mem_map.mpr ⟨t, ht, hgt⟩))
      · have : c.day = c₀.day := by rw [← hcc]; simp
        rw [this]; exact htd
    · rcases mem_make_clones h' with ⟨u, hu, m, _, hcm⟩
      have huT : u ∈ s.tasks := (rollover_sources_sublist s d).subset hu
      have hui : u.id ∈ (rollover_sources s d).map (fun t => t.id) :=
        (mem_srcIds_iff hnd huT).mpr hu
      have hgi : i = u.id := by
        rw [hcm] at hci
        simpa using hci.symm
      refine ⟨stash_mark ((rollover_sources s d).map (fun t => t.id)) u,
        ?_, ?_, ?_, ?_⟩
      · rw [htasks]
        exact List.mem_append.mpr (Or.inl (List.mem_map.mpr ⟨u, huT, rfl⟩))
      · rw [stash_mark_id, hgi]
      · rw [stash_mark_of_mem hui]
      · rw [stash_mark_day, hcm]
        simpa using (mem_rollover_sources hu).2.1

lemma user_assignable_ne_stashed {st : TaskStatus}
    (h : st.user_assignable) : st ≠ TaskStatus.stashed := by
  rcases h with h | h | h | h <;> rw [h] <;> intro hcon <;> cases hcon

lemma Inv_empty : Inv Storage.empty := by
  refine ⟨⟨?_, ?_⟩, ?_, ?_⟩
  · intro t ht; cases ht
  · simp [Storage.empty]
  · intro t ht; cases ht
  · intro c hc; cases hc

lemma Inv_add {s : Storage} (h : Inv s) (d : Nat) (title : String)
    (details : Option String) : Inv (add_task s d title details).1 := by
  obtain ⟨⟨hbound, hnd⟩, hs1, hs2⟩ := h
  have htasks : (add_task s d title details).1.tasks
      = s.tasks ++ [⟨s.nextId, title, details, TaskStatus.todo, d, none⟩] := rfl
  have hnext : (add_task s d title details).1.nextId = s.nextId + 1 := rfl
  refine ⟨⟨?_, ?_⟩, ?_, ?_⟩
  · intro t ht
    rw [htasks] at ht
    rw [hnext]
    rcases List.mem_append.mp ht with h' | h'
    · have := hbound t h'; omega
    · simp at h'; subst h'; exact Nat.lt_succ_self _
  · rw [htasks, List.map_append, List.nodup_append]
    refine ⟨hnd, by simp, ?_⟩
    intro a ha hb
    simp at hb
    rcases List.mem_map.mp ha with ⟨u, hu, hua⟩
    have := hbound u hu
    omega
  · intro t ht hts
    rw [htasks] at ht
    rcases List.mem_append.mp ht with h' | h'
    · rcases hs1 t h' hts with ⟨c, hc1, hc2, hc3⟩
      exact ⟨c, by rw [htasks]; exact List.mem_append.mpr (Or.inl hc1), hc2, hc3⟩
    · simp at h'; subst h'; cases hts
  · intro c hc i hci
    rw [htasks] at hc
    rcases List.mem_append.mp hc with h' | h'
    · rcases hs2 c h' i hci with ⟨t, ht, h1, h2, h3⟩
      exact ⟨t, by rw [htasks]; exact List.mem_append.mpr (Or.inl ht), h1, h2, h3⟩
    · simp at h'; subst h'; cases hci

lemma Inv_update {s : Storage} (h : Inv s) {t : Task} {st : TaskStatus}
    (ht : t ∈ s.tasks) (hd : ∀ u ∈ s.tasks, u.day ≤ t.day)
    (hst : st.user_assignable) : Inv (set_status s t.id st) := by
  obtain ⟨⟨hbound, hnd⟩, hs1, hs2⟩ := h
  have hid : ∀ u : Task,
      (if u.id = t.id then { u with status := st } else u).id = u.id := by
    intro u; split <;> rfl
  have hday : ∀ u : Task,
      (if u.id = t.id then { u with status := st } else u).day = u.day := by
    intro u; split <;> rfl
  have hparent : ∀ u : Task,
      (if u.id = t.id then { u with status := st } else u).parent_task
        = u.parent_task := by
    intro u; split <;> rfl
  have htns : t.status ≠ TaskStatus.stashed := by
    intro hts
    rcases hs1 t ht hts with ⟨c, hc1, _, hc3⟩
    exact absurd (hd c hc1) (Nat.not_le.mpr hc3)
  have htasks : (set_status s t.id st).tasks
      = s.tasks.map (fun u => if u.id = t.id then { u with status := st } else u) :=
    rfl
  refine ⟨⟨?_, ?_⟩, ?_, ?_⟩
  · intro u hu
    rw [htasks] at hu
    rcases List.mem_map.mp hu with ⟨v, hv, hvu⟩
    have : u.id = v.id := by rw [← hvu]; exact hid v
    rw [show (set_status s t.id st).nextId = s.nextId from rfl, this]
    exact hbound v hv
  · rw [htasks, List.map_map]
    have : ((fun u : Task => u.id) ∘
        (fun u => if u.id = t.id then { u with status := st } else u))
          = fun u : Task => u.id := by
      funext u; exact hid u
    rw [this]
    exact hnd
  · intro u hu hus
    rw [htasks] at hu
    rcases List.mem_map.mp hu with ⟨v, hv, hvu⟩
    have hvid : v.id ≠ t.id := by
      intro hvt
      have hvteq : v = t := id_inj hnd hv ht hvt
      rw [← hvu, hvteq] at hus
      simp at hus
      exact user_assignable_ne_stashed hst hus
    have hvu' : u = v := by rw [← hvu, if_neg hvid]
    rcases hs1 v hv (hvu' ▸ hus) with ⟨c, hc1, hc2, hc3⟩
    refine ⟨if c.id = t.id then { c with status := st } else c, ?_, ?_, ?_⟩
    · rw [htasks]; exact List.mem_map.mpr ⟨c, hc1, rfl⟩
    · rw [hparent c, hvu']; exact hc2
    · rw [hday c, hvu']; exact hc3
  · intro c hc i hci
    rw [htasks] at hc
    rcases List.mem_map.mp hc with ⟨c₀, hc₀, hcc⟩
    have hpar : c₀.parent_task = some i := by rw [← hparent c₀, hcc]; exact hci
    rcases hs2 c₀ hc₀ i hpar with ⟨u, hu, h1, h2, h3⟩
    have huid : u.id ≠ t.id := by
      intro hut
      have : u = t := id_inj hnd hu ht hut
      exact htns (this ▸ h2)
    refine ⟨u, ?_, h1, h2, ?_⟩
    · rw [htasks]
      exact List.mem_map.mpr ⟨u, hu, by rw [if_neg huid]⟩
    · have : c.day = c₀.day := by rw [← hcc]; exact hday c₀
      rw [this]; exact h3

lemma Inv_step {s s' : Storage} (h : Inv s) (hs : Step s s') : Inv s' := by
  cases hs with
  | bind d =>
    by_cases hb : find_tasks_by_day s d = []
    · have : (from_date s d).1 = rollover_state s d := by
        simp [from_date, hb]
      rw [this]
      exact ⟨IdInv_rollover h.1 d, StashInv_rollover h d⟩
    · have : (from_date s d).1 = s := by simp [from_date, hb]
      rw [this]; exact h
  | bind_failed d =>
    by_cases hb : find_tasks_by_day s d = [] <;>
      simp [from_date_fallible, hb] <;> exact h
  | add d title details => exact Inv_add h d title details
  | update t st ht hd hst => exact Inv_update h ht hd hst

lemma Reachable_Inv {s : Storage} (h : Reachable s) : Inv s := by
  induction h with
  | refl => exact Inv_empty
  | tail _ hbc ih => exact Inv_step ih hbc

/-! ## Lineage traversal -/

lemma lookup_parent {s : Storage} (hInv : Inv s) {c : Task} (hc : c ∈ s.tasks)
    {i : Nat} (hci : c.parent_task = some i) :
    ∃ p, lookup_task s i = some p ∧ p ∈ s.tasks ∧ p.day < c.day := by
  obtain ⟨⟨_, hnd⟩, _, hs2⟩ := hInv
  rcases hs2 c hc i hci with ⟨t, ht, hti, _, htd⟩
  cases hfind : lookup_task s i with
  | none =>
    exfalso
    unfold lookup_task at hfind
    rw [List.find?_eq_none] at hfind
    exact hfind t ht (by simp [hti])
  | some p =>
    have hfind' : s.tasks.find? (fun t => t.id = i) = some p := hfind
    have hp1 : p.id = i := by
      have := List.find?_some hfind'
      simpa using this
    have hp2 : p ∈ s.tasks := List.mem_of_find?_eq_some hfind'
    have hpt : p = t := id_inj hnd hp2 ht (by rw [hp1, hti])
    exact ⟨p, rfl, hp2, by rw [hpt]; exact htd⟩

lemma lineage_stable {s : Storage} (hInv : Inv s) :
    ∀ (n : Nat) (t : Task), t ∈ s.tasks → t.day ≤ n →
      ∀ f₁ f₂ : Nat, t.day < f₁ → t.day < f₂ →
        lineage s f₁ t = lineage s f₂ t := by
  intro n
  induction n with
  | zero =>
    intro t ht hday f₁ f₂ h1 h2
    obtain ⟨a, rfl⟩ : ∃ a, f₁ = a + 1 := ⟨f₁ - 1, by omega⟩
    obtain ⟨b, rfl⟩ : ∃ b, f₂ = b + 1 := ⟨f₂ - 1, by omega⟩
    cases hp : t.parent_task with
    | none => simp [lineage, hp]
    | some i =>
      rcases lookup_parent hInv ht hp with ⟨p, hl, hpm, hpd⟩
      omega
  | succ n ih =>
    intro t ht hday f₁ f₂ h1 h2
    obtain ⟨a, rfl⟩ : ∃ a, f₁ = a + 1 := ⟨f₁ - 1, by omega⟩
    obtain ⟨b, rfl⟩ : ∃ b, f₂ = b + 1 := ⟨f₂ - 1, by omega⟩
    cases hp : t.parent_task with
    | none => simp [lineage, hp]
    | some i =>
      rcases lookup_parent hInv ht hp with ⟨p, hl, hpm, hpd⟩
      have hrec : lineage s a p = lineage s b p :=
        ih p hpm (by omega) a b (by omega) (by omega)
      simp [lineage, hp, hl, hrec]

lemma lineage_length {s : Storage} (hInv : Inv s) :
    ∀ (n : Nat) (t : Task), t ∈ s.tasks → t.day ≤ n →
      ∀ f : Nat, (lineage s f t).length ≤ t.day + 1 := by
  intro n
  induction n with
  | zero =>
    intro t ht hday f
    cases f with
    | zero => simp [lineage]
    | succ a =>
      cases hp : t.parent_task with
      | none => simp [lineage, hp]
      | some i =>
        rcases lookup_parent hInv ht hp with ⟨p, hl, hpm, hpd⟩
        omega
  | succ n ih =>
    intro t ht hday f
    cases f with
    | zero => simp [lineage]
    | succ a =>
      cases hp : t.parent_task with
      | none => simp [lineage, hp]
      | some i =>
        rcases lookup_parent hInv ht hp with ⟨p, hl, hpm, hpd⟩
        have hrec : (lineage s a p).length ≤ p.day + 1 :=
          ih p hpm (by omega) a
        simp [lineage, hp, hl, List.length_append]
        omega

/-! ## Sample data for concrete witnesses -/

/-- A day-1 `TODO` task with details. -/
def exA : Task := ⟨1, "a", some "da", TaskStatus.todo, 1, none⟩

/-- A day-1 `DONE` task without details. -/
def exB : Task := ⟨2, "b", none, TaskStatus.done, 1, none⟩

/-- A day-1 `BLOCKED` task. -/
def exC : Task := ⟨3, "c", none, TaskStatus.blocked, 1, none⟩

/-- A storage holding the three day-1 sample tasks. -/
def exStorage : Storage := ⟨[exA, exB, exC], 4⟩

/-! ## Claim theorems -/

/-- C4: for every task and every target status drawn from
`{TODO, DONE, BLOCKED, DELETED}`, a same-status `update_task` performs zero
persistence writes and returns the distinguished "unchanged" outcome, while a
different status performs exactly one status write and returns "updated";
the two outcomes are distinct. -/
theorem update_task_no_op_vs_update (s : Storage) (t : Task) (st : TaskStatus)
    (_hst : st.user_assignable) :
    (st = t.status → update_task s t st = (s, UpdateResult.unchanged, 0))
    ∧ (st ≠ t.status →
        update_task s t st = (set_status s t.id st, UpdateResult.updated, 1))
    ∧ UpdateResult.unchanged ≠ UpdateResult.updated := by
  refine ⟨?_, ?_, by intro h; cases h⟩
  · intro h; unfold update_task; rw [if_pos h]
  · intro h; unfold update_task; rw [if_neg h]

/-- Witness for C4 at concrete inputs: a same-status request on a `TODO` task
is a storage-preserving no-op, and a `DONE` request on it performs the one
status write. -/
theorem update_task_no_op_vs_update_witness :
    TaskStatus.todo.user_assignable
    ∧ TaskStatus.done.user_assignable
    ∧ update_task exStorage exA TaskStatus.todo
        = (exStorage, UpdateResult.unchanged, 0)
    ∧ update_task exStorage exA TaskStatus.done
        = (set_status exStorage exA.id TaskStatus.done, UpdateResult.updated, 1) :=
  ⟨Or.inl rfl, Or.inr (Or.inl rfl),
   (update_task_no_op_vs_update exStorage exA TaskStatus.todo
     (Or.inl rfl)).1 (by decide),
   (update_task_no_op_vs_update exStorage exA TaskStatus.done
     (Or.inr (Or.inl rfl))).2.1 (by decide)⟩

/-- C8: the command-layer `get_task` returns a task exactly when a task with
that id exists on the bound day; otherwise (id absent, or task on another day)
it yields the `TaskError` with message `"Task N does not exist."` — a
surfaced error value, not a crash. -/
theorem get_task_day_scoped (s : Storage) (d i : Nat) :
    (∀ t, command_get_task s d i = Except.ok t →
      t ∈ s.tasks ∧ t.id = i ∧ t.day = d)
    ∧ ((∀ t ∈ s.tasks, ¬(t.id = i ∧ t.day = d)) ↔
        command_get_task s d i
          = Except.error ("Task " ++ toString i ++ " does not exist.")) := by
  constructor
  · intro t hOk
    unfold command_get_task tracker_get_task find_task_by_id_and_day at hOk
    cases hfind : s.tasks.find? (fun u => u.id = i && u.day = d) with
    | none => rw [hfind] at hOk; cases hOk
    | some u =>
      rw [hfind] at hOk
      simp only [Except.ok.injEq] at hOk
      subst hOk
      have hprop := List.find?_some hfind
      simp only [Bool.and_eq_true, decide_eq_true_eq] at hprop
      exact ⟨List.mem_of_find?_eq_some hfind, hprop.1, hprop.2⟩
  · constructor
    · intro hnone
      have hfind : s.tasks.find? (fun u => u.id = i && u.day = d) = none := by
        rw [List.find?_eq_none]
        intro u hu
        simp only [Bool.and_eq_true, decide_eq_true_eq]
        intro hcon
        exact hnone u hu hcon
      unfold command_get_task tracker_get_task find_task_by_id_and_day
      rw [hfind]
    · intro herr u hu hcon
      unfold command_get_task tracker_get_task find_task_by_id_and_day at herr
      cases hfind : s.tasks.find? (fun u => u.id = i && u.day = d) with
      | some v => rw [hfind] at herr; cases herr
      | none =>
        rw [List.find?_eq_none] at hfind
        exact hfind u hu (by simp [hcon.1, hcon.2])

/-- Witness for C8 at concrete inputs: id 9 exists on no day, so the lookup on
day 1 yields the not-found error. -/
theorem get_task_day_scoped_witness :
    (∀ t ∈ exStorage.tasks, ¬(t.id = 9 ∧ t.day = 1))
    ∧ command_get_task exStorage 1 9
        = Except.error ("Task " ++ toString 9 ++ " does not exist.") :=
  ⟨by decide, (get_task_day_scoped exStorage 1 9).2.mp (by decide)⟩

/-- C9: `get_tasks` returns exactly the bound day's tasks whose status is not
in the exclusion set, as a (possibly empty) sublist of the day's creation-order
listing — so order is preserved and an empty result is an ordinary value. -/
theorem get_tasks_exclusion (s : Storage) (d : Nat) (exclude : List TaskStatus) :
    (∀ t, t ∈ get_tasks s d exclude ↔
      t ∈ s.tasks ∧ t.day = d ∧ t.status ∉ exclude)
    ∧ (get_tasks s d exclude).Sublist (find_tasks_by_day s d) := by
  constructor
  · intro t
    constructor
    · intro ht
      have h' := List.mem_filter.mp ht
      have h1 := mem_find_tasks_by_day.mp h'.1
      refine ⟨h1.1, h1.2, ?_⟩
      have := h'.2
      simpa using this
    · intro ⟨h1, h2, h3⟩
      refine List.mem_filter.mpr ⟨mem_find_tasks_by_day.mpr ⟨h1, h2⟩, ?_⟩
      simpa using h3
  · exact List.filter_sublist _

/-- Witness for C9 at concrete inputs: over day-0 tasks
`[TODO, DELETED, DONE]`, excluding `DELETED` keeps the first and third tasks
in their original order. -/
theorem get_tasks_exclusion_witness :
    (⟨1, "x", none, TaskStatus.todo, 0, none⟩ : Task)
        ∈ get_tasks ⟨[⟨1, "x", none, TaskStatus.todo, 0, none⟩,
            ⟨2, "y", none, TaskStatus.deleted, 0, none⟩,
            ⟨3, "z", none, TaskStatus.done, 0, none⟩], 4⟩ 0 [TaskStatus.deleted]
    ∧ get_tasks ⟨[⟨1, "x", none, TaskStatus.todo, 0, none⟩,
        ⟨2, "y", none, TaskStatus.deleted, 0, none⟩,
        ⟨3, "z", none, TaskStatus.done, 0, none⟩], 4⟩ 0 [TaskStatus.deleted]
      = [⟨1, "x", none, TaskStatus.todo, 0, none⟩,
         ⟨3, "z", none, TaskStatus.done, 0, none⟩] :=
  ⟨((get_tasks_exclusion ⟨[⟨1, "x", none, TaskStatus.todo, 0, none⟩,
      ⟨2, "y", none, TaskStatus.deleted, 0, none⟩,
      ⟨3, "z", none, TaskStatus.done, 0, none⟩], 4⟩ 0 [TaskStatus.deleted]).1
        ⟨1, "x", none, TaskStatus.todo, 0, none⟩).mpr (by decide),
   by decide⟩

/-- C10: the copy command rejects a resolved task whose details are absent
*or* the empty string (Python falsiness conflates the two) with the
`"Task N does not have details."` error and no clipboard write; with
non-empty details it writes the details to the clipboard exactly once and
reports success. -/
theorem copy_details_guard (task_id : Nat) (t : Task) :
    ((t.details = none ∨ t.details = some "") →
      copy_execute task_id t
        = ([], Except.error
            ("Task " ++ toString task_id ++ " does not have details.")))
    ∧ (∀ d : String, t.details = some d → d ≠ "" →
        copy_execute task_id t
          = ([d], Except.ok
              ("Task " ++ toString task_id ++ " details copied to clipboard."))) := by
  constructor
  · rintro (h | h) <;> simp [copy_execute, h]
  · intro d hd hne
    simp [copy_execute, hd, hne]

/-- Witness for C10 at concrete inputs: empty-string details are rejected
without a clipboard write, and non-empty details are copied exactly once. -/
theorem copy_details_guard_witness :
    ((⟨5, "e", some "", TaskStatus.todo, 1, none⟩ : Task).details = none
      ∨ (⟨5, "e", some "", TaskStatus.todo, 1, none⟩ : Task).details = some "")
    ∧ copy_execute 5 ⟨5, "e", some "", TaskStatus.todo, 1, none⟩
        = ([], Except.error ("Task " ++ toString 5 ++ " does not have details."))
    ∧ copy_execute 1 exA
        = (["da"], Except.ok
            ("Task " ++ toString 1 ++ " details copied to clipboard.")) :=
  ⟨Or.inr rfl,
   (copy_details_guard 5 ⟨5, "e", some "", TaskStatus.todo, 1, none⟩).1
     (Or.inr rfl),
   (copy_details_guard 1 exA).2 "da" rfl (by decide)⟩

/-- C2: once a first `from_date d` call has created tasks for `d`
(`new_day = true` with a non-empty carry-over), every subsequent
`from_date d` call returns `new_day = false`, leaves the storage untouched
(read-only), and binds to the very task set the first call left for `d`. -/
theorem from_date_idempotent (s s1 : Storage) (d : Nat)
    (h : from_date s d = (s1, true))
    (hsrc : rollover_sources s d ≠ []) :
    from_date s1 d = (s1, false)
    ∧ find_tasks_by_day (from_date s1 d).1 d = find_tasks_by_day s1 d := by
  have hb : find_tasks_by_day s d = [] := by
    by_contra hb
    rw [from_date, if_neg hb] at h
    simp at h
  have hs1 : s1 = rollover_state s d := by
    rw [from_date, if_pos hb] at h
    exact (Prod.mk.injEq _ _ _ _ ▸ h).1.symm
  have hclones : find_tasks_by_day s1 d = rollover_clones s d := by
    rw [hs1]
    exact find_tasks_by_day_rollover s d hb
  have hne : find_tasks_by_day s1 d ≠ [] := by
    rw [hclones]
    intro hcon
    apply hsrc
    have hlen := congrArg List.length hcon
    rw [rollover_clones, make_clones_length] at hlen
    exact List.length_eq_zero.mp hlen
  constructor
  · rw [from_date, if_neg hne]
  · rw [from_date, if_neg hne]

/-- Witness for C2 at concrete inputs: rolling a lone day-0 `TODO` task into
day 1 creates the day, and re-binding day 1 is a read-only no-op. -/
theorem from_date_idempotent_witness :
    from_date ⟨[⟨1, "w", none, TaskStatus.todo, 0, none⟩], 2⟩ 1
      = (⟨[⟨1, "w", none, TaskStatus.stashed, 0, none⟩,
           ⟨2, "w", none, TaskStatus.todo, 1, some 1⟩], 3⟩, true)
    ∧ rollover_sources ⟨[⟨1, "w", none, TaskStatus.todo, 0, none⟩], 2⟩ 1 ≠ []
    ∧ from_date ⟨[⟨1, "w", none, TaskStatus.stashed, 0, none⟩,
        ⟨2, "w", none, TaskStatus.todo, 1, some 1⟩], 3⟩ 1
      = (⟨[⟨1, "w", none, TaskStatus.stashed, 0, none⟩,
           ⟨2, "w", none, TaskStatus.todo, 1, some 1⟩], 3⟩, false) :=
  ⟨by decide, by decide,
   (from_date_idempotent ⟨[⟨1, "w", none, TaskStatus.todo, 0, none⟩], 2⟩
     ⟨[⟨1, "w", none, TaskStatus.stashed, 0, none⟩,
       ⟨2, "w", none, TaskStatus.todo, 1, some 1⟩], 3⟩ 1
     (by decide) (by decide)).1⟩

/-- C7: binding a date with no tasks rolls over from the most recent strictly
earlier day that has tasks: with tasks on day `D` and none on `D+1`, `D+2`,
`D+3`, binding `D+3` is a new day sourced from `D`'s unfinished tasks. -/
theorem skip_day_rollover (s : Storage) (D : Nat)
    (hD : find_tasks_by_day s D ≠ [])
    (h1 : find_tasks_by_day s (D + 1) = [])
    (h2 : find_tasks_by_day s (D + 2) = [])
    (h3 : find_tasks_by_day s (D + 3) = []) :
    (from_date s (D + 3)).2 = true
    ∧ find_latest_day_before s (D + 3) = some D
    ∧ rollover_sources s (D + 3)
        = (find_tasks_by_day s D).filter (fun t => t.status.unfinished) := by
  have hmemD : ∃ t ∈ s.tasks, t.day = D := by
    cases hft : find_tasks_by_day s D with
    | nil => exact absurd hft hD
    | cons t r =>
      have htm : t ∈ find_tasks_by_day s D := hft ▸ List.mem_cons_self t r
      have := mem_find_tasks_by_day.mp htm
      exact ⟨t, this.1, this.2⟩
  have hno1 : ∀ t ∈ s.tasks, t.day ≠ D + 1 := by
    intro t ht hcon
    have : t ∈ find_tasks_by_day s (D + 1) :=
      mem_find_tasks_by_day.mpr ⟨ht, hcon⟩
    rw [h1] at this
    cases this
  have hno2 : ∀ t ∈ s.tasks, t.day ≠ D + 2 := by
    intro t ht hcon
    have : t ∈ find_tasks_by_day s (D + 2) :=
      mem_find_tasks_by_day.mpr ⟨ht, hcon⟩
    rw [h2] at this
    cases this
  have hlatest : find_latest_day_before s (D + 3) = some D := by
    apply find_latest_day_before_eq_some hmemD (by omega)
    intro t ht htd
    have hc1 := hno1 t ht
    have hc2 := hno2 t ht
    omega
  refine ⟨?_, hlatest, ?_⟩
  · rw [from_date, if_pos h3]
  · unfold rollover_sources
    rw [hlatest]

/-- Witness for C7 at concrete inputs: a day-0 task and empty days 1–3 make
binding day 3 a new day sourced from day 0's unfinished tasks. -/
theorem skip_day_rollover_witness :
    find_tasks_by_day ⟨[⟨1, "w", none, TaskStatus.todo, 0, none⟩], 2⟩ 0 ≠ []
    ∧ find_latest_day_before ⟨[⟨1, "w", none, TaskStatus.todo, 0, none⟩], 2⟩ 3
        = some 0
    ∧ rollover_sources ⟨[⟨1, "w", none, TaskStatus.todo, 0, none⟩], 2⟩ 3
        = (find_tasks_by_day ⟨[⟨1, "w", none, TaskStatus.todo, 0, none⟩], 2⟩
            0).filter (fun t => t.status.unfinished) :=
  ⟨by decide,
   (skip_day_rollover ⟨[⟨1, "w", none, TaskStatus.todo, 0, none⟩], 2⟩ 0
     (by decide) (by decide) (by decide) (by decide)).2.1,
   (skip_day_rollover ⟨[⟨1, "w", none, TaskStatus.todo, 0, none⟩], 2⟩ 0
     (by decide) (by decide) (by decide) (by decide)).2.2⟩

/-- C5: for a chain `C -> parent B -> parent A` created on days
`d0 < d1 < d2`, `history(C)` is exactly
`[d0, A, d1, B, d2, C]` — oldest ancestor day first, each day marker
immediately followed by that day's task entry, ending with the task itself. -/
theorem history_lineage_order (s : Storage) (A B C : Task) (d0 d1 d2 : Nat)
    (hA : A.day = d0) (hB : B.day = d1) (hC : C.day = d2)
    (h01 : d0 < d1) (h12 : d1 < d2)
    (hCp : C.parent_task = some B.id) (hBp : B.parent_task = some A.id)
    (hAp : A.parent_task = none)
    (hlB : lookup_task s B.id = some B) (hlA : lookup_task s A.id = some A) :
    history s C
      = [HistoryItem.day_marker d0, HistoryItem.entry A,
         HistoryItem.day_marker d1, HistoryItem.entry B,
         HistoryItem.day_marker d2, HistoryItem.entry C] := by
  have hlin : lineage s (C.day + 1) C = [A, B, C] := by
    rw [hC]
    obtain ⟨m, hm⟩ : ∃ m, d2 = m + 1 + 1 := ⟨d2 - 2, by omega⟩
    rw [hm]
    simp [lineage, hCp, hlB, hBp, hlA, hAp]
  rw [history, hlin]
  have hne01 : d0 ≠ d1 := Nat.ne_of_lt h01
  have hne12 : d1 ≠ d2 := Nat.ne_of_lt h12
  simp [history_group, hA, hB, hC, hne01, hne12]

/-- Witness for C5 at concrete inputs: a three-task chain over days 0, 1, 2
yields the six-item grouped history. -/
theorem history_lineage_order_witness :
    history ⟨[⟨1, "h", none, TaskStatus.stashed, 0, none⟩,
        ⟨2, "h", none, TaskStatus.stashed, 1, some 1⟩,
        ⟨3, "h", none, TaskStatus.todo, 2, some 2⟩], 4⟩
      ⟨3, "h", none, TaskStatus.todo, 2, some 2⟩
      = [HistoryItem.day_marker 0,
         HistoryItem.entry ⟨1, "h", none, TaskStatus.stashed, 0, none⟩,
         HistoryItem.day_marker 1,
         HistoryItem.entry ⟨2, "h", none, TaskStatus.stashed, 1, some 1⟩,
         HistoryItem.day_marker 2,
         HistoryItem.entry ⟨3, "h", none, TaskStatus.todo, 2, some 2⟩] :=
  history_lineage_order
    ⟨[⟨1, "h", none, TaskStatus.stashed, 0, none⟩,
      ⟨2, "h", none, TaskStatus.stashed, 1, some 1⟩,
      ⟨3, "h", none, TaskStatus.todo, 2, some 2⟩], 4⟩
    ⟨1, "h", none, TaskStatus.stashed, 0, none⟩
    ⟨2, "h", none, TaskStatus.stashed, 1, some 1⟩
    ⟨3, "h", none, TaskStatus.todo, 2, some 2⟩
    0 1 2 rfl rfl rfl (by decide) (by decide) rfl rfl rfl
    (by decide) (by decide)

/-- C6: in every reachable storage state, for every task, the history
traversal is finite and terminates: fuel `t.day + 1` already reaches the
fixed point of the `parent_task` walk (more fuel changes nothing), and the
visited chain has at most `t.day + 1` tasks — because each parent lives on a
strictly earlier day and no rollover sequence creates a cycle. -/
theorem history_traversal_terminates (s : Storage) (hs : Reachable s) :
    ∀ t ∈ s.tasks,
      (∀ f : Nat, t.day < f → lineage s f t = lineage s (t.day + 1) t)
      ∧ (lineage s (t.day + 1) t).length ≤ t.day + 1 := by
  intro t ht
  have hInv := Reachable_Inv hs
  constructor
  · intro f hf
    exact lineage_stable hInv t.day t ht (le_refl _) f (t.day + 1) hf
      (Nat.lt_succ_self _)
  · exact lineage_length hInv t.day t ht (le_refl _) _

/-- The single-task storage reached by one `add_task` on a fresh install. -/
def exReached : Storage := ⟨[⟨0, "w", none, TaskStatus.todo, 0, none⟩], 1⟩

/-- `exReached` really is reachable: one `add_task` step from the empty
storage. -/
lemma exReached_reachable : Reachable exReached :=
  Relation.ReflTransGen.single (Step.add Storage.empty 0 "w" none)

/-- Witness for C6 at concrete inputs: in a reachable one-task storage, any
larger fuel gives the same traversal, and its length is bounded. -/
theorem history_traversal_terminates_witness :
    (⟨0, "w", none, TaskStatus.todo, 0, none⟩ : Task) ∈ exReached.tasks
    ∧ lineage exReached 5 ⟨0, "w", none, TaskStatus.todo, 0, none⟩
        = lineage exReached
            ((⟨0, "w", none, TaskStatus.todo, 0, none⟩ : Task).day + 1)
            ⟨0, "w", none, TaskStatus.todo, 0, none⟩
    ∧ (lineage exReached
          ((⟨0, "w", none, TaskStatus.todo, 0, none⟩ : Task).day + 1)
          ⟨0, "w", none, TaskStatus.todo, 0, none⟩).length
        ≤ (⟨0, "w", none, TaskStatus.todo, 0, none⟩ : Task).day + 1 :=
  ⟨by decide,
   (history_traversal_terminates exReached exReached_reachable
     ⟨0, "w", none, TaskStatus.todo, 0, none⟩ (by decide)).1 5 (by decide),
   (history_traversal_terminates exReached exReached_reachable
     ⟨0, "w", none, TaskStatus.todo, 0, none⟩ (by decide)).2⟩

/-- C3: rollover is all-or-nothing — a fallible `from_date` either leaves the
storage exactly as it was (rollback on failure, or nothing to do) or commits
the complete rollover state; and consequently in every reachable storage
state no `STASHED` task lacks a successor and no successor's source is
anything but `STASHED`. -/
theorem rollover_atomicity (s : Storage) (hs : Reachable s) (d : Nat)
    (fail : Bool) :
    ((from_date_fallible s d fail).1 = s
      ∨ (from_date_fallible s d fail).1 = rollover_state s d)
    ∧ (∀ t ∈ s.tasks, t.status = TaskStatus.stashed →
        ∃ c ∈ s.tasks, c.parent_task = some t.id ∧ t.day < c.day)
    ∧ (∀ c ∈ s.tasks, ∀ i, c.parent_task = some i →
        ∃ t ∈ s.tasks, t.id = i ∧ t.status = TaskStatus.stashed
          ∧ t.day < c.day) := by
  have hInv := Reachable_Inv hs
  refine ⟨?_, hInv.2.1, hInv.2.2⟩
  unfold from_date_fallible
  by_cases hb : find_tasks_by_day s d = []
  · cases fail <;> simp [hb]
  · simp [hb]

/-- Witness for C3 at concrete inputs: a failing rollover of the reachable
one-task storage leaves it untouched, and the stash/successor pairing holds
there. -/
theorem rollover_atomicity_witness :
    ((from_date_fallible exReached 1 true).1 = exReached
      ∨ (from_date_fallible exReached 1 true).1 = rollover_state exReached 1)
    ∧ (∀ t ∈ exReached.tasks, t.status = TaskStatus.stashed →
        ∃ c ∈ exReached.tasks, c.parent_task = some t.id ∧ t.day < c.day)
    ∧ (∀ c ∈ exReached.tasks, ∀ i, c.parent_task = some i →
        ∃ t ∈ exReached.tasks, t.id = i ∧ t.status = TaskStatus.stashed
          ∧ t.day < c.day) :=
  rollover_atomicity exReached exReached_reachable 1 true

/-- C1: for a prior day whose ordered task list is
`[A : TODO, B : DONE, C : BLOCKED]`, binding a later date with no tasks rolls
over exactly A and C, in that order: the new state appends precisely the two
clones (same title and details, status `TODO`, `parent_task` pointing to A
and C, fresh sequential ids), A and C become `STASHED` in place, B is left
unchanged, and the new day's task list is exactly the two clones. -/
theorem rollover_carry_over (s : Storage) (A B C : Task) (dp d : Nat)
    (hcur : s.tasks = [A, B, C])
    (hdA : A.day = dp) (hdB : B.day = dp) (hdC : C.day = dp)
    (hlt : dp < d)
    (hsA : A.status = TaskStatus.todo) (hsB : B.status = TaskStatus.done)
    (hsC : C.status = TaskStatus.blocked)
    (hBA : B.id ≠ A.id) (hBC : B.id ≠ C.id) :
    from_date s d = (rollover_state s d, true)
    ∧ rollover_sources s d = [A, C]
    ∧ (rollover_state s d).tasks
        = [{ A with status := TaskStatus.stashed }, B,
           { C with status := TaskStatus.stashed },
           clone_of A d s.nextId, clone_of C d (s.nextId + 1)]
    ∧ find_tasks_by_day (rollover_state s d) d
        = [clone_of A d s.nextId, clone_of C d (s.nextId + 1)] := by
  have hne : dp ≠ d := Nat.ne_of_lt hlt
  have hempty : find_tasks_by_day s d = [] := by
    rw [find_tasks_by_day, hcur]
    simp [hdA, hdB, hdC, hne]
  have hlatest : find_latest_day_before s d = some dp := by
    apply find_latest_day_before_eq_some
    · exact ⟨A, by rw [hcur]; exact List.mem_cons_self _ _, hdA⟩
    · exact hlt
    · intro t ht _
      rw [hcur] at ht
      simp at ht
      rcases ht with rfl | rfl | rfl <;> simp [hdA, hdB, hdC]
  have hsources : rollover_sources s d = [A, C] := by
    unfold rollover_sources
    rw [hlatest]
    have hday : find_tasks_by_day s dp = [A, B, C] := by
      rw [find_tasks_by_day, hcur]
      simp [hdA, hdB, hdC]
    show (find_tasks_by_day s dp).filter (fun t => t.status.unfinished) = [A, C]
    rw [hday]
    simp [TaskStatus.unfinished, hsA, hsB, hsC]
  have hclones : rollover_clones s d
      = [clone_of A d s.nextId, clone_of C d (s.nextId + 1)] := by
    rw [rollover_clones, hsources]
    rfl
  have hmarked : (rollover_state s d).tasks
      = [{ A with status := TaskStatus.stashed }, B,
         { C with status := TaskStatus.stashed },
         clone_of A d s.nextId, clone_of C d (s.nextId + 1)] := by
    show s.tasks.map (stash_mark ((rollover_sources s d).map (fun t => t.id)))
        ++ rollover_clones s d = _
    rw [hsources, hclones, hcur]
    have hmA : stash_mark [A.id, C.id] A
        = { A with status := TaskStatus.stashed } :=
      stash_mark_of_mem (by simp)
    have hmB : stash_mark [A.id, C.id] B = B :=
      stash_mark_of_not_mem (by simp [hBA, hBC])
    have hmC : stash_mark [A.id, C.id] C
        = { C with status := TaskStatus.stashed } :=
      stash_mark_of_mem (by simp)
    simp [hmA, hmB, hmC]
  refine ⟨?_, hsources, hmarked, ?_⟩
  · rw [from_date, if_pos hempty]
  · rw [find_tasks_by_day_rollover s d hempty, hclones]

/-- Witness for C1 at concrete inputs: the sample day-1 storage
`[A : TODO, B : DONE, C : BLOCKED]` rolled into day 2 stashes A and C and
creates exactly their two clones on day 2. -/
theorem rollover_carry_over_witness :
    exStorage.tasks = [exA, exB, exC]
    ∧ from_date exStorage 2 = (rollover_state exStorage 2, true)
    ∧ rollover_sources exStorage 2 = [exA, exC]
    ∧ (rollover_state exStorage 2).tasks
        = [{ exA with status := TaskStatus.stashed }, exB,
           { exC with status := TaskStatus.stashed },
           clone_of exA 2 exStorage.nextId, clone_of exC 2 (exStorage.nextId + 1)]
    ∧ find_tasks_by_day (rollover_state exStorage 2) 2
        = [clone_of exA 2 exStorage.nextId,
           clone_of exC 2 (exStorage.nextId + 1)] :=
  ⟨rfl,
   (rollover_carry_over exStorage exA exB exC 1 2 rfl rfl rfl rfl (by decide)
     rfl rfl rfl (by decide) (by decide)).1,
   (rollover_carry_over exStorage exA exB exC 1 2 rfl rfl rfl rfl (by decide)
     rfl rfl rfl (by decide) (by decide)).2.1,
   (rollover_carry_over exStorage exA exB exC 1 2 rfl rfl rfl rfl (by decide)
     rfl rfl rfl (by decide) (by decide)).2.2.1,
   (rollover_carry_over exStorage exA exB exC 1 2 rfl rfl rfl rfl (by decide)
     rfl rfl rfl (by decide) (by decide)).2.2.2⟩

end Hyperfocus
